import Mathlib

/-!
Shallow embedding of the `tpsp` command-line program (cmd/tpsp/main.go).

Go strings are modelled as lists of characters (`Str := List Char`);
byte-level quantities (Go's `len` on a string) are recovered through an
explicit UTF-8 byte-length function. The pure string transforms, the
service filter, the two renderers' data computations, and the control
flow of `main` are embedded as executable Lean functions.
-/

abbrev Str := List Char

/-- Whitespace recognised by Go's `strings.TrimSpace` (`unicode.IsSpace`),
restricted to the Latin-1 range that can occur in the program's data:
space, tab, newline, vertical tab, form feed, carriage return, NEL, NBSP. -/
def isGoSpace (c : Char) : Bool :=
  c == ' ' || c == '\t' || c == '\n' || c.toNat == 11 || c.toNat == 12 ||
  c == '\r' || c.toNat == 0x85 || c.toNat == 0xA0

/-- Go's `strings.TrimSpace`: drop whitespace from both ends. -/
def trimSpace (s : Str) : Str :=
  ((s.dropWhile isGoSpace).reverse.dropWhile isGoSpace).reverse

/-- Simple lower-casing of one character as done by Go's `strings.ToLower`,
covering ASCII and the Latin-1 uppercase letters (the only letters the
program compares). Other characters are left unchanged. -/
def goLowerChar (c : Char) : Char :=
  if 0x41 ≤ c.toNat ∧ c.toNat ≤ 0x5A then Char.ofNat (c.toNat + 32)
  else if 0xC0 ≤ c.toNat ∧ c.toNat ≤ 0xDE ∧ c.toNat ≠ 0xD7 then Char.ofNat (c.toNat + 32)
  else c

/-- Simple upper-casing of one character as done by Go's `strings.ToUpper`,
covering ASCII and the Latin-1 lowercase letters. -/
def goUpperChar (c : Char) : Char :=
  if 0x61 ≤ c.toNat ∧ c.toNat ≤ 0x7A then Char.ofNat (c.toNat - 32)
  else if 0xE0 ≤ c.toNat ∧ c.toNat ≤ 0xFE ∧ c.toNat ≠ 0xF7 then Char.ofNat (c.toNat - 32)
  else c

/-- Go's `strings.ToLower` on a whole string. -/
def toLowerStr (s : Str) : Str := s.map goLowerChar

/-- Go's `strings.EqualFold` at the level this program uses it
(ASCII service/type names): equality after lower-casing. -/
def equalFold (a b : Str) : Bool := toLowerStr a == toLowerStr b

/-- UTF-8 encoded byte length of one character. -/
def utf8Len (c : Char) : Nat :=
  if c.toNat < 0x80 then 1
  else if c.toNat < 0x800 then 2
  else if c.toNat < 0x10000 then 3
  else 4

/-- Go's `len` on a string: the number of UTF-8 bytes. -/
def byteLen (s : Str) : Nat := (s.map utf8Len).sum

-- API response structures (main.go lines 43-62)

structure LineItem where
  id : Str
  line : Str
  color : Str
  status : Str
  statusColor : Str
  description : Str
  code : Str
deriving Repr, DecidableEq

structure ServiceData where
  listItem : List LineItem
  dateUpdate : Str
  type : Str
deriving Repr, DecidableEq

structure APIResponse where
  status : Bool
  data : List ServiceData
deriving Repr, DecidableEq

-- ANSI color codes (main.go lines 77-84)

def colorReset : Str := "\x1b[0m".data
def colorBold : Str := "\x1b[1m".data
def colorDim : Str := "\x1b[2m".data
def colorGreen : Str := "\x1b[32m".data
def colorYellow : Str := "\x1b[33m".data
def colorRed : Str := "\x1b[31m".data

/-- `getColorForStatus` (main.go lines 86-99): switch on the lower-cased
status color. -/
def getColorForStatus (statusColor : Str) : Str :=
  let s := toLowerStr statusColor
  if s = "verde".data then colorGreen
  else if s = "amarelo".data then colorYellow
  else if s = "vermelho".data then colorRed
  else if s = "cinza".data then colorDim
  else colorReset

/-- Go's `strings.Split(s, "-")`: split on every dash; never returns `[]`
(splitting the empty string yields `[[]]`). -/
def splitDash : Str → List Str
  | [] => [[]]
  | c :: rest =>
    match splitDash rest with
    | [] => [[c]]
    | p :: ps => if c = '-' then [] :: p :: ps else (c :: p) :: ps

/-- Modelled from the spec: character-level title-casing, "first character
upper-cased, the rest lower-cased" (the empty string unchanged). The code's
`formatLineName` only coincides with this when the segment starts with an
ASCII byte; see `byteTitle` for what the code actually does. -/
def titleCase : Str → Str
  | [] => []
  | c :: rest => goUpperChar c :: rest.map goLowerChar

/-- The UTF-8 encoding of one character, as a list of byte values. -/
def utf8EncodeChar (c : Char) : List Nat :=
  if c.toNat < 0x80 then [c.toNat]
  else if c.toNat < 0x800 then [0xC0 + c.toNat / 64, 0x80 + c.toNat % 64]
  else if c.toNat < 0x10000 then
    [0xE0 + c.toNat / 4096, 0x80 + (c.toNat / 64) % 64, 0x80 + c.toNat % 64]
  else
    [0xF0 + c.toNat / 262144, 0x80 + (c.toNat / 4096) % 64,
     0x80 + (c.toNat / 64) % 64, 0x80 + c.toNat % 64]

/-- The UTF-8 byte string underlying a Go string. -/
def utf8Encode (s : Str) : List Nat := (s.map utf8EncodeChar).flatten

/-- The range Go's `utf8.DecodeRune` accepts for the second byte, given the
first: 0xE0 and 0xF0 exclude overlong encodings, 0xED excludes surrogates,
0xF4 caps at U+10FFFF; every other leader takes a plain continuation byte. -/
def utf8Accept2nd (b0 b1 : Nat) : Prop :=
  if b0 = 0xE0 then 0xA0 ≤ b1 ∧ b1 ≤ 0xBF
  else if b0 = 0xED then 0x80 ≤ b1 ∧ b1 ≤ 0x9F
  else if b0 = 0xF0 then 0x90 ≤ b1 ∧ b1 ≤ 0xBF
  else if b0 = 0xF4 then 0x80 ≤ b1 ∧ b1 ≤ 0x8F
  else 0x80 ≤ b1 ∧ b1 ≤ 0xBF

instance utf8Accept2ndDec (b0 b1 : Nat) : Decidable (utf8Accept2nd b0 b1) := by
  unfold utf8Accept2nd
  infer_instance

/-- UTF-8 decoding with Go's `utf8.DecodeRune` semantics, as used by
`strings.Map` inside `strings.ToLower`: a malformed or truncated sequence
consumes exactly one byte and yields U+FFFD. The fuel argument only bounds
the number of decoded characters; every step consumes at least one byte, so
`bs.length` fuel (as `utf8Decode` passes) is always enough and the
out-of-fuel branch is unreachable. -/
def utf8DecodeFuel : Nat → List Nat → Str
  | _, [] => []
  | 0, _ :: _ => []
  | fuel + 1, b0 :: rest =>
    if b0 < 0x80 then Char.ofNat b0 :: utf8DecodeFuel fuel rest
    else if 0xC2 ≤ b0 ∧ b0 ≤ 0xDF then
      match rest with
      | b1 :: rest2 =>
        if 0x80 ≤ b1 ∧ b1 ≤ 0xBF then
          Char.ofNat ((b0 - 0xC0) * 64 + (b1 - 0x80)) :: utf8DecodeFuel fuel rest2
        else Char.ofNat 0xFFFD :: utf8DecodeFuel fuel (b1 :: rest2)
      | [] => [Char.ofNat 0xFFFD]
    else if 0xE0 ≤ b0 ∧ b0 ≤ 0xEF then
      match rest with
      | b1 :: b2 :: rest3 =>
        if utf8Accept2nd b0 b1 ∧ 0x80 ≤ b2 ∧ b2 ≤ 0xBF then
          Char.ofNat ((b0 - 0xE0) * 4096 + (b1 - 0x80) * 64 + (b2 - 0x80)) ::
            utf8DecodeFuel fuel rest3
        else Char.ofNat 0xFFFD :: utf8DecodeFuel fuel rest
      | short => Char.ofNat 0xFFFD :: utf8DecodeFuel fuel short
    else if 0xF0 ≤ b0 ∧ b0 ≤ 0xF4 then
      match rest with
      | b1 :: b2 :: b3 :: rest4 =>
        if utf8Accept2nd b0 b1 ∧ (0x80 ≤ b2 ∧ b2 ≤ 0xBF) ∧
            (0x80 ≤ b3 ∧ b3 ≤ 0xBF) then
          Char.ofNat ((b0 - 0xF0) * 262144 + (b1 - 0x80) * 4096 +
              (b2 - 0x80) * 64 + (b3 - 0x80)) :: utf8DecodeFuel fuel rest4
        else Char.ofNat 0xFFFD :: utf8DecodeFuel fuel rest
      | short => Char.ofNat 0xFFFD :: utf8DecodeFuel fuel short
    else Char.ofNat 0xFFFD :: utf8DecodeFuel fuel rest

/-- Go's UTF-8 decoding of a whole byte string. -/
def utf8Decode (bs : List Nat) : Str := utf8DecodeFuel bs.length bs

/-- The title-casing `formatLineName` actually performs (main.go line 111):
`strings.ToUpper(string(name[0])) + strings.ToLower(name[1:])`. The first
BYTE of the segment is converted to a one-rune string (Go's integer-to-string
conversion) and upper-cased; the remaining byte slice — which may start in
the middle of a multi-byte character — is lower-cased rune by rune, invalid
bytes becoming U+FFFD. Both halves are valid UTF-8, so the result is their
character-level concatenation. -/
def byteTitle (name : Str) : Str :=
  match utf8Encode name with
  | [] => []
  | b0 :: rest => goUpperChar (Char.ofNat b0) :: (utf8Decode rest).map goLowerChar

/-- `formatLineName` (main.go lines 102-112): last dash-separated segment,
trimmed, then byte-level title-cased. -/
def formatLineName (line : Str) : Str :=
  byteTitle (trimSpace ((splitDash line).getLastD []))

/-- `normalizeStatus` (main.go lines 115-125): trim, then map the two known
plural phrases to their singular forms; otherwise return the trimmed input. -/
def normalizeStatus (status : Str) : Str :=
  let s := trimSpace status
  if toLowerStr s = "operações encerradas".data then "Operação Encerrada".data
  else if toLowerStr s = "operações normais".data then "Operação Normal".data
  else s

/-- `filterByService` (main.go lines 150-160): concatenate the line items of
every batch whose type matches the service (empty service matches all). -/
def filterByService (data : List ServiceData) (service : Str) : List LineItem :=
  data.foldl
    (fun result svc =>
      if service.isEmpty || equalFold svc.type service then result ++ svc.listItem
      else result)
    []

def validServices : List Str :=
  ["metro".data, "cptm".data, "viamobilidade".data, "viaquatro".data]

/-- `isValidService` (main.go lines 162-169). -/
def isValidService (service : Str) : Bool :=
  validServices.any (fun s => equalFold s service)

/-- The line-name column width computed by `printTable` (main.go lines
172-179): the running maximum of `len(name)` (UTF-8 bytes), starting at 5. -/
def tableMaxLen (lines : List LineItem) : Nat :=
  lines.foldl
    (fun maxLen l =>
      let n := byteLen (formatLineName l.line)
      if n > maxLen then n else maxLen)
    5

/-- Modelled from the spec: the column width the spec describes, "the maximum
display width (in characters) of all formatted line names, with a floor of 5".
Character count, not byte count. -/
def specDisplayWidth (lines : List LineItem) : Nat :=
  Nat.max 5 ((lines.map (fun l => (formatLineName l.line).length)).foldl Nat.max 0)

-- JSON values, for the round-trip statement about `printJSON`

inductive Json where
  | num (n : Int)
  | str (s : Str)
  | arr (elems : List Json)
  | obj (fields : List (Str × Json))
deriving Repr

/-- The JSON document produced by `printJSON` (main.go lines 194-212):
`encoding/json` marshals struct fields in declaration order
(`Code`, `Data`, `Message` with tags `code`, `data`, `message`). -/
def printJSONDoc (lines : List LineItem) : Json :=
  .obj
    [("code".data, .num 200),
     ("data".data, .arr (lines.map (fun l =>
        .obj [("line".data, .str (formatLineName l.line)),
              ("status".data, .str (normalizeStatus l.status))]))),
     ("message".data, .str "success".data)]

/-- Look a key up in a JSON object's field list. -/
def lookupField (fields : List (Str × Json)) (k : Str) : Option Json :=
  match fields with
  | [] => none
  | (k₀, v) :: rest => if k₀ = k then some v else lookupField rest k

/-- Decode one `data` entry: an object with string fields `line` and `status`. -/
def decodeEntry (j : Json) : Option (Str × Str) :=
  match j with
  | .obj f =>
    match lookupField f "line".data, lookupField f "status".data with
    | some (.str l), some (.str s) => some (l, s)
    | _, _ => none
  | _ => none

/-- Decode a list of `data` entries, failing if any entry fails. -/
def decodeEntries : List Json → Option (List (Str × Str))
  | [] => some []
  | j :: js =>
    match decodeEntry j, decodeEntries js with
    | some e, some es => some (e :: es)
    | _, _ => none

/-- Decode a produced document back into `(code, entries, message)`. -/
def decodeOutput (j : Json) : Option (Int × List (Str × Str) × Str) :=
  match j with
  | .obj f =>
    match lookupField f "code".data, lookupField f "data".data,
          lookupField f "message".data with
    | some (.num c), some (.arr es), some (.str m) =>
      match decodeEntries es with
      | some entries => some (c, entries, m)
      | none => none
    | _, _, _ => none
  | _ => none

-- Control flow of `main` (main.go lines 253-342)

/-- The flag state accumulated by `main`'s argument loop, plus the
positional arguments collected into `args`. -/
structure Flags where
  jsonOutput : Bool
  showVersion : Bool
  showCopyright : Bool
  showHelp : Bool
  args : List Str
deriving Repr, DecidableEq

def initFlags : Flags := ⟨false, false, false, false, []⟩

/-- Does an argument start with `-` (Go's `strings.HasPrefix(arg, "-")`)? -/
def startsWithDash (arg : Str) : Bool :=
  match arg with
  | [] => false
  | c :: _ => c == '-'

/-- The arguments `main`'s switch recognises as flags. -/
def recognizedFlags : List Str :=
  ["-j".data, "--json".data, "-v".data, "--version".data,
   "--copyright".data, "-h".data, "--help".data]

/-- `main`'s manual flag loop (main.go lines 262-282). An unknown flag stops
the program at once: the loop's `default` branch exits with code 1 after two
lines on standard error. -/
def parseLoop : List Str → Flags → Except (List Str) Flags
  | [], st => .ok st
  | arg :: rest, st =>
    if arg = "-j".data ∨ arg = "--json".data then
      parseLoop rest { st with jsonOutput := true }
    else if arg = "-v".data ∨ arg = "--version".data then
      parseLoop rest { st with showVersion := true }
    else if arg = "--copyright".data then
      parseLoop rest { st with showCopyright := true }
    else if arg = "-h".data ∨ arg = "--help".data then
      parseLoop rest { st with showHelp := true }
    else if startsWithDash arg then
      .error [("Error: unknown flag ".data ++ arg),
              "Use tpsp --help for usage information".data]
    else
      parseLoop rest { st with args := st.args ++ [arg] }

/-- What kind of report a run printed to standard output. -/
inductive OutputKind where
  | none
  | usage
  | version
  | copyright
  | table
  | json
deriving Repr, DecidableEq

/-- Observable outcome of one invocation: exit code, the lines written to
standard error, whether the HTTP request was issued, and which report (if
any) went to standard output. -/
structure MainResult where
  exitCode : Nat
  stderr : List Str
  httpRequested : Bool
  output : OutputKind
deriving Repr, DecidableEq

/-- Outcome of `fetchLineStatuses` (main.go lines 127-148): a network,
status or parse error message, or the decoded response. -/
inductive FetchOutcome where
  | err (msg : Str)
  | ok (resp : APIResponse)
deriving Repr, DecidableEq

/-- `main` (main.go lines 253-342) over the command-line arguments
(`os.Args[1:]`) and the outcome the fetch would have. -/
def runMain (argv : List Str) (fetch : FetchOutcome) : MainResult :=
  match parseLoop argv initFlags with
  | .error msgs => ⟨1, msgs, false, .none⟩
  | .ok st =>
    if st.showHelp then ⟨0, [], false, .usage⟩
    else if st.showVersion then ⟨0, [], false, .version⟩
    else if st.showCopyright then ⟨0, [], false, .copyright⟩
    else
      let serviceFilter := st.args.headD []
      if st.args ≠ [] ∧ ¬ isValidService serviceFilter then
        ⟨1, [("Error: invalid service ".data ++ serviceFilter),
             "Valid services: metro, cptm, viamobilidade, viaquatro".data],
         false, .none⟩
      else
        match fetch with
        | .err m => ⟨1, ["Error: ".data ++ m], true, .none⟩
        | .ok resp =>
          if ¬ resp.status then
            ⟨1, ["Error: API returned unsuccessful status".data], true, .none⟩
          else
            let lines := filterByService resp.data serviceFilter
            if lines = [] then ⟨1, ["No lines found".data], true, .none⟩
            else if st.jsonOutput then ⟨0, [], true, .json⟩
            else ⟨0, [], true, .table⟩

/-- Modelled from the spec: "the text after the last dash in its input"
(the whole input when there is no dash). -/
def afterLastDash (s : Str) : Str :=
  (s.reverse.takeWhile (fun c => c != '-')).reverse

/-- The line item used to separate the byte-length width the code computes
from the character-count width the spec describes. -/
def wideNameItem : LineItem :=
  ⟨[], "-aáááá".data, [], [], [], [], []⟩

/-- An argument that starts with a dash but is none of the recognized flags:
the loop's `default` branch rejects it. -/
def unknownFlagArg (a : Str) : Bool :=
  startsWithDash a && !(recognizedFlags.contains a)

/-- Does the invocation contain an unknown flag anywhere? -/
def hasUnknownFlag (argv : List Str) : Bool := argv.any unknownFlagArg

-- Helper lemmas about characters

theorem toNat_ofNat_lt (n : Nat) (h : n < 0xD800) : (Char.ofNat n).toNat = n := by
  have hv : n.isValidChar := Or.inl h
  simp [Char.ofNat, Char.ofNatAux, Char.toNat, hv]
  simp [UInt32.toNat, BitVec.toNat_ofNatLt]

theorem goLowerChar_idem (c : Char) : goLowerChar (goLowerChar c) = goLowerChar c := by
  unfold goLowerChar
  by_cases h1 : 0x41 ≤ c.toNat ∧ c.toNat ≤ 0x5A
  · rw [if_pos h1]
    have ht : (Char.ofNat (c.toNat + 32)).toNat = c.toNat + 32 := toNat_ofNat_lt _ (by omega)
    rw [ht, if_neg (by omega), if_neg (by omega)]
  · rw [if_neg h1]
    by_cases h2 : 0xC0 ≤ c.toNat ∧ c.toNat ≤ 0xDE ∧ c.toNat ≠ 0xD7
    · rw [if_pos h2]
      have ht : (Char.ofNat (c.toNat + 32)).toNat = c.toNat + 32 := toNat_ofNat_lt _ (by omega)
      rw [ht, if_neg (by omega), if_neg (by omega)]
    · rw [if_neg h2, if_neg h1, if_neg h2]

theorem toLowerStr_idem (s : Str) : toLowerStr (toLowerStr s) = toLowerStr s := by
  simp only [toLowerStr, List.map_map]
  exact List.map_congr_left (fun c _ => goLowerChar_idem c)

/-- Claim C10: the status-color mapping is case-insensitive: lower-casing the
input first does not change the result; in particular "Verde", "VERDE" and
"verde" all map to the green code. -/
theorem getColorForStatus_caseInsensitive :
    (∀ s : Str, getColorForStatus s = getColorForStatus (toLowerStr s)) ∧
    getColorForStatus "Verde".data = colorGreen ∧
    getColorForStatus "VERDE".data = colorGreen ∧
    getColorForStatus "verde".data = colorGreen := by
  refine ⟨fun s => ?_, by decide, by decide, by decide⟩
  simp only [getColorForStatus, toLowerStr_idem]

/-- Claim C3: the four known status-color strings map to the fixed ANSI codes
(verde to green, amarelo to yellow, vermelho to red, cinza to dim), and any
string that is not one of the known status colors maps to the reset code. -/
theorem getColorForStatus_spec :
    (getColorForStatus "verde".data = colorGreen ∧
     getColorForStatus "amarelo".data = colorYellow ∧
     getColorForStatus "vermelho".data = colorRed ∧
     getColorForStatus "cinza".data = colorDim) ∧
    (∀ s : Str, toLowerStr s ≠ "verde".data → toLowerStr s ≠ "amarelo".data →
      toLowerStr s ≠ "vermelho".data → toLowerStr s ≠ "cinza".data →
      getColorForStatus s = colorReset) := by
  refine ⟨by decide, fun s h1 h2 h3 h4 => ?_⟩
  simp only [getColorForStatus, if_neg h1, if_neg h2, if_neg h3, if_neg h4]

theorem getColorForStatus_spec_witness :
    getColorForStatus "azul".data = colorReset :=
  getColorForStatus_spec.2 "azul".data (by decide) (by decide) (by decide) (by decide)

/-- Claim C5: status normalization maps the two known plural phrases to their
singular forms (in particular "Operações Normais" to "Operação Normal"), and
returns every other input unchanged apart from trimming. -/
theorem normalizeStatus_spec :
    normalizeStatus "Operações Normais".data = "Operação Normal".data ∧
    normalizeStatus "Operações Encerradas".data = "Operação Encerrada".data ∧
    (∀ s : Str, toLowerStr (trimSpace s) ≠ "operações encerradas".data →
      toLowerStr (trimSpace s) ≠ "operações normais".data →
      normalizeStatus s = trimSpace s) := by
  refine ⟨by decide, by decide, fun s h1 h2 => ?_⟩
  simp only [normalizeStatus, if_neg h1, if_neg h2]

theorem normalizeStatus_spec_witness :
    normalizeStatus "  tudo certo ".data = trimSpace "  tudo certo ".data :=
  normalizeStatus_spec.2.2 "  tudo certo ".data (by decide) (by decide)

-- Lemmas about splitDash and the last dash-separated segment

theorem splitDash_ne_nil (s : Str) : splitDash s ≠ [] := by
  cases s with
  | nil => simp [splitDash]
  | cons c rest =>
    simp only [splitDash]
    cases h : splitDash rest with
    | nil => simp
    | cons p ps => dsimp only; split <;> simp

theorem splitDash_no_dash (s : Str) (h : '-' ∉ s) : splitDash s = [s] := by
  induction s with
  | nil => rfl
  | cons c rest ih =>
    have hc : c ≠ '-' := fun he => h (he ▸ List.mem_cons_self c rest)
    have hr : '-' ∉ rest := fun hm => h (List.mem_cons_of_mem c hm)
    simp only [splitDash, ih hr]
    rw [if_neg hc]

theorem splitDash_length_of_mem (s : Str) (h : '-' ∈ s) : 2 ≤ (splitDash s).length := by
  induction s with
  | nil => cases h
  | cons c rest ih =>
    simp only [splitDash]
    cases hr : splitDash rest with
    | nil => exact absurd hr (splitDash_ne_nil rest)
    | cons p ps =>
      dsimp only
      by_cases hc : c = '-'
      · rw [if_pos hc]; simp
      · rw [if_neg hc]
        have hm : '-' ∈ rest := by
          rcases List.mem_cons.mp h with he | hm
          · exact absurd he.symm hc
          · exact hm
        have := ih hm
        rw [hr] at this
        simpa using this

theorem takeWhile_append_of_all {p : Char → Bool} (xs ys : Str)
    (h : ∀ x ∈ xs, p x = true) :
    (xs ++ ys).takeWhile p = xs ++ ys.takeWhile p := by
  induction xs with
  | nil => simp
  | cons a as ih =>
    have ha := h a (List.mem_cons_self a as)
    simp only [List.cons_append, List.takeWhile_cons, ha, ite_true]
    rw [ih (fun x hx => h x (List.mem_cons_of_mem a hx))]

theorem takeWhile_append_of_stop {p : Char → Bool} (xs ys : Str) (x : Char)
    (hx : x ∈ xs) (hpx : p x = false) :
    (xs ++ ys).takeWhile p = xs.takeWhile p := by
  induction xs with
  | nil => cases hx
  | cons a as ih =>
    by_cases ha : p a
    · have hxas : x ∈ as := by
        rcases List.mem_cons.mp hx with he | hm
        · rw [he] at hpx; rw [hpx] at ha; cases ha
        · exact hm
      simp only [List.cons_append, List.takeWhile_cons, ha, ite_true]
      rw [ih hxas]
    · simp only [List.cons_append, List.takeWhile_cons]
      rw [if_neg ha, if_neg ha]

theorem afterLastDash_cons_of_mem (c : Char) (rest : Str) (h : '-' ∈ rest) :
    afterLastDash (c :: rest) = afterLastDash rest := by
  unfold afterLastDash
  rw [List.reverse_cons,
    takeWhile_append_of_stop rest.reverse [c] '-' (List.mem_reverse.mpr h) (by decide)]

theorem afterLastDash_cons_of_not_mem (c : Char) (rest : Str) (h : '-' ∉ rest) :
    afterLastDash (c :: rest) =
      if c = '-' then rest else c :: rest := by
  unfold afterLastDash
  have hall : ∀ x ∈ rest.reverse, (x != '-') = true := by
    intro x hx
    have : x ∈ rest := List.mem_reverse.mp hx
    simp only [bne_iff_ne, ne_eq]
    exact fun he => h (he ▸ this)
  rw [List.reverse_cons, takeWhile_append_of_all rest.reverse [c] hall]
  by_cases hc : c = '-'
  · subst hc
    simp [List.takeWhile]
  · have hcb : ('-' != '-') = false := by decide
    have hcc : (c != '-') = true := by simp [bne_iff_ne, hc]
    simp [List.takeWhile, hcc]
    rw [if_neg hc]

theorem splitDash_getLastD (s : Str) :
    (splitDash s).getLastD [] = afterLastDash s := by
  induction s with
  | nil => rfl
  | cons c rest ih =>
    simp only [splitDash]
    cases hr : splitDash rest with
    | nil => exact absurd hr (splitDash_ne_nil rest)
    | cons p ps =>
      dsimp only
      by_cases hd : '-' ∈ rest
      · rw [afterLastDash_cons_of_mem c rest hd]
        have hlen : 2 ≤ (splitDash rest).length := splitDash_length_of_mem rest hd
        rw [hr] at hlen
        have hps : ps ≠ [] := by
          intro he; rw [he] at hlen; simp at hlen
        rw [hr] at ih
        by_cases hc : c = '-'
        · rw [if_pos hc, List.getLastD_cons, List.getLastD_cons]
          rw [List.getLastD_cons] at ih
          rw [← ih]
        · rw [if_neg hc, List.getLastD_cons]
          rw [List.getLastD_cons] at ih
          rw [← ih]
          rcases List.exists_cons_of_ne_nil hps with ⟨q, qs, hq⟩
          subst hq
          rw [List.getLastD_cons, List.getLastD_cons]
      · rw [afterLastDash_cons_of_not_mem c rest hd]
        have : splitDash rest = [rest] := splitDash_no_dash rest hd
        rw [this] at hr
        cases hr
        by_cases hc : c = '-'
        · rw [if_pos hc, if_pos hc]
          simp [List.getLastD_cons]
        · rw [if_neg hc, if_neg hc]
          simp [List.getLastD_cons]

theorem char_isValid (c : Char) :
    c.toNat < 0xD800 ∨ (0xDFFF < c.toNat ∧ c.toNat < 0x110000) := c.valid

theorem utf8DecodeFuel_encodeChar (fuel : Nat) (c : Char) (bs : List Nat) :
    utf8DecodeFuel (fuel + 1) (utf8EncodeChar c ++ bs) =
      c :: utf8DecodeFuel fuel bs := by
  have hv := char_isValid c
  unfold utf8EncodeChar
  by_cases h1 : c.toNat < 0x80
  · rw [if_pos h1]
    show utf8DecodeFuel (fuel + 1) (c.toNat :: bs) = c :: utf8DecodeFuel fuel bs
    simp only [utf8DecodeFuel]
    rw [if_pos h1, Char.ofNat_toNat]
  · rw [if_neg h1]
    by_cases h2 : c.toNat < 0x800
    · rw [if_pos h2]
      show utf8DecodeFuel (fuel + 1)
          ((0xC0 + c.toNat / 64) :: (0x80 + c.toNat % 64) :: bs)
        = c :: utf8DecodeFuel fuel bs
      simp only [utf8DecodeFuel]
      rw [if_neg (by omega), if_pos (by omega), if_pos (by omega)]
      have hval : (0xC0 + c.toNat / 64 - 0xC0) * 64 + (0x80 + c.toNat % 64 - 0x80)
          = c.toNat := by omega
      rw [hval, Char.ofNat_toNat]
    · rw [if_neg h2]
      by_cases h3 : c.toNat < 0x10000
      · rw [if_pos h3]
        show utf8DecodeFuel (fuel + 1)
            ((0xE0 + c.toNat / 4096) :: (0x80 + (c.toNat / 64) % 64) ::
              (0x80 + c.toNat % 64) :: bs)
          = c :: utf8DecodeFuel fuel bs
        simp only [utf8DecodeFuel]
        rw [if_neg (by omega), if_neg (by omega), if_pos (by omega)]
        have hacc : utf8Accept2nd (0xE0 + c.toNat / 4096)
            (0x80 + (c.toNat / 64) % 64) := by
          unfold utf8Accept2nd
          by_cases hE0 : 0xE0 + c.toNat / 4096 = 0xE0
          · rw [if_pos hE0]
            omega
          · rw [if_neg hE0]
            by_cases hED : 0xE0 + c.toNat / 4096 = 0xED
            · rw [if_pos hED]
              omega
            · rw [if_neg hED, if_neg (by omega), if_neg (by omega)]
              omega
        rw [if_pos ⟨hacc, by omega, by omega⟩]
        have hval : (0xE0 + c.toNat / 4096 - 0xE0) * 4096 +
            (0x80 + (c.toNat / 64) % 64 - 0x80) * 64 + (0x80 + c.toNat % 64 - 0x80)
            = c.toNat := by omega
        rw [hval, Char.ofNat_toNat]
      · rw [if_neg h3]
        show utf8DecodeFuel (fuel + 1)
            ((0xF0 + c.toNat / 262144) :: (0x80 + (c.toNat / 4096) % 64) ::
              (0x80 + (c.toNat / 64) % 64) :: (0x80 + c.toNat % 64) :: bs)
          = c :: utf8DecodeFuel fuel bs
        simp only [utf8DecodeFuel]
        rw [if_neg (by omega), if_neg (by omega), if_neg (by omega),
          if_pos (by omega)]
        have hacc : utf8Accept2nd (0xF0 + c.toNat / 262144)
            (0x80 + (c.toNat / 4096) % 64) := by
          unfold utf8Accept2nd
          rw [if_neg (by omega), if_neg (by omega)]
          by_cases hF0 : 0xF0 + c.toNat / 262144 = 0xF0
          · rw [if_pos hF0]
            omega
          · rw [if_neg hF0]
            by_cases hF4 : 0xF0 + c.toNat / 262144 = 0xF4
            · rw [if_pos hF4]
              omega
            · rw [if_neg hF4]
              omega
        rw [if_pos ⟨hacc, ⟨by omega, by omega⟩, by omega, by omega⟩]
        have hval : (0xF0 + c.toNat / 262144 - 0xF0) * 262144 +
            (0x80 + (c.toNat / 4096) % 64 - 0x80) * 4096 +
            (0x80 + (c.toNat / 64) % 64 - 0x80) * 64 + (0x80 + c.toNat % 64 - 0x80)
            = c.toNat := by omega
        rw [hval, Char.ofNat_toNat]
theorem length_le_utf8Encode (s : Str) : s.length ≤ (utf8Encode s).length := by
  induction s with
  | nil => simp [utf8Encode]
  | cons c cs ih =>
    have h1 : 1 ≤ (utf8EncodeChar c).length := by
      unfold utf8EncodeChar
      split
      · simp
      · split
        · simp
        · split <;> simp
    simp only [utf8Encode, List.map_cons, List.flatten_cons, List.length_append,
      List.length_cons] at ih ⊢
    omega

theorem utf8DecodeFuel_encode (s : Str) (fuel : Nat) (h : s.length ≤ fuel) :
    utf8DecodeFuel fuel (utf8Encode s) = s := by
  induction s generalizing fuel with
  | nil =>
    cases fuel <;> rfl
  | cons c cs ih =>
    cases fuel with
    | zero => simp at h
    | succ f =>
      have henc : utf8Encode (c :: cs) = utf8EncodeChar c ++ utf8Encode cs := by
        simp [utf8Encode]
      have hle : cs.length ≤ f := by
        simp only [List.length_cons] at h
        omega
      rw [henc, utf8DecodeFuel_encodeChar, ih f hle]

theorem utf8Decode_encode (s : Str) : utf8Decode (utf8Encode s) = s :=
  utf8DecodeFuel_encode s (utf8Encode s).length (length_le_utf8Encode s)

theorem byteTitle_eq_titleCase (name : Str)
    (h : (name.headD ' ').toNat < 0x80) :
    byteTitle name = titleCase name := by
  cases name with
  | nil => rfl
  | cons c cs =>
    have hc : c.toNat < 0x80 := by simpa using h
    unfold byteTitle
    have henc : utf8Encode (c :: cs) = c.toNat :: utf8Encode cs := by
      simp only [utf8Encode, List.map_cons, List.flatten_cons]
      unfold utf8EncodeChar
      rw [if_pos hc]
      rfl
    rw [henc]
    dsimp only
    rw [Char.ofNat_toNat, utf8Decode_encode]
    rfl

/-- Claim C4 counterexample: at the input "água" (whose trimmed last segment
starts with the two-byte character á) the code yields "Ã", then U+FFFD for
the orphaned continuation byte, then "gua" — not the character-level title
case "Água". -/
theorem formatLineName_not_charTitle :
    formatLineName "água".data = ['Ã', '\uFFFD', 'g', 'u', 'a'] ∧
    titleCase (trimSpace (afterLastDash "água".data)) = "Água".data ∧
    formatLineName "água".data ≠ titleCase (trimSpace (afterLastDash "água".data)) := by
  decide

/-- Claim C4 as amended: line-name formatting takes the text after the last
dash, trims it, and title-cases it at the byte level (upper-case the first
byte as a code point, lower-case the remaining byte suffix decoded as UTF-8);
whenever the trimmed segment is empty or starts with an ASCII character this
equals character-level title-casing; `formatLineName "Linha 1-Azul"` is
`"Azul"`, and a segment that trims to nothing yields the empty string. -/
theorem formatLineName_spec :
    (∀ s : Str, formatLineName s = byteTitle (trimSpace (afterLastDash s))) ∧
    (∀ s : Str, ((trimSpace (afterLastDash s)).headD ' ').toNat < 0x80 →
      formatLineName s = titleCase (trimSpace (afterLastDash s))) ∧
    formatLineName "Linha 1-Azul".data = "Azul".data ∧
    (∀ s : Str, trimSpace (afterLastDash s) = [] → formatLineName s = []) := by
  have hmain : ∀ s : Str,
      formatLineName s = byteTitle (trimSpace (afterLastDash s)) := by
    intro s
    rw [formatLineName, splitDash_getLastD]
  refine ⟨hmain, fun s hh => ?_, by decide, fun s he => ?_⟩
  · rw [hmain s, byteTitle_eq_titleCase _ hh]
  · rw [hmain s, he]
    rfl

theorem formatLineName_spec_witness :
    (formatLineName "Linha 15-prata".data
      = titleCase (trimSpace (afterLastDash "Linha 15-prata".data))) ∧
    formatLineName "abc-  ".data = [] :=
  ⟨formatLineName_spec.2.1 "Linha 15-prata".data (by decide),
   formatLineName_spec.2.2.2 "abc-  ".data (by decide)⟩

/-- Claim C9 counterexample: the dashless input " água" is not returned
trimmed and title-cased; the code upper-cases the first byte of "água" and
mangles the orphaned continuation byte to U+FFFD. -/
theorem formatLineName_noDash_not_charTitle :
    ('-' ∉ " água".data) ∧
    formatLineName " água".data ≠ titleCase (trimSpace " água".data) := by
  decide

/-- Claim C9 as amended: on an input containing no dash whose trimmed text is
empty or starts with an ASCII character, line-name formatting returns the
whole input trimmed and title-cased (first character upper-cased, the rest
lower-cased), and the result is non-empty whenever the trimmed input is. -/
theorem formatLineName_noDash (s : Str) (h : '-' ∉ s)
    (hh : ((trimSpace s).headD ' ').toNat < 0x80) :
    formatLineName s = titleCase (trimSpace s) ∧
    (trimSpace s ≠ [] → formatLineName s ≠ []) := by
  have h1 : formatLineName s = byteTitle (trimSpace s) := by
    rw [formatLineName, splitDash_no_dash s h]
    rfl
  have h2 : formatLineName s = titleCase (trimSpace s) := by
    rw [h1, byteTitle_eq_titleCase _ hh]
  refine ⟨h2, fun hne => ?_⟩
  rw [h2]
  cases ht : trimSpace s with
  | nil => exact absurd ht hne
  | cons c cs => simp [titleCase]

theorem formatLineName_noDash_witness :
    formatLineName " azul maré ".data = titleCase (trimSpace " azul maré ".data) ∧
    (trimSpace " azul maré ".data ≠ [] → formatLineName " azul maré ".data ≠ []) :=
  formatLineName_noDash " azul maré ".data (by decide) (by decide)

-- Filter characterization (claim C1)

theorem filterByService_foldl (data : List ServiceData) (service : Str)
    (acc : List LineItem) :
    data.foldl
      (fun result svc =>
        if service.isEmpty || equalFold svc.type service then result ++ svc.listItem
        else result)
      acc
    = acc ++
      ((data.filter
          (fun svc => service.isEmpty || equalFold svc.type service)).map
        ServiceData.listItem).flatten := by
  induction data generalizing acc with
  | nil => simp
  | cons d ds ih =>
    simp only [List.foldl_cons, List.filter_cons]
    by_cases h : (service.isEmpty || equalFold d.type service) = true
    · rw [if_pos h, if_pos h, ih]
      simp [List.append_assoc]
    · rw [if_neg h, if_neg h, ih]

/-- Claim C1: `filterByService` returns, in source order, the concatenation
of the line items of exactly the batches whose type matches the service
case-insensitively (empty service matches every batch); with the empty
service it returns all items of all batches, and when exactly one batch
matches a non-empty service it returns precisely that batch's items. -/
theorem filterByService_spec :
    (∀ (data : List ServiceData) (service : Str),
      filterByService data service =
        ((data.filter
            (fun svc => service.isEmpty || equalFold svc.type service)).map
          ServiceData.listItem).flatten) ∧
    (∀ data : List ServiceData,
      filterByService data [] = (data.map ServiceData.listItem).flatten) ∧
    (∀ (data : List ServiceData) (service : Str) (b : ServiceData),
      service ≠ [] →
      data.filter (fun svc => equalFold svc.type service) = [b] →
      filterByService data service = b.listItem) := by
  have hmain : ∀ (data : List ServiceData) (service : Str),
      filterByService data service =
        ((data.filter
            (fun svc => service.isEmpty || equalFold svc.type service)).map
          ServiceData.listItem).flatten := by
    intro data service
    rw [filterByService, filterByService_foldl]
    rfl
  refine ⟨hmain, fun data => ?_, fun data service b hs hf => ?_⟩
  · rw [hmain]
    simp [List.isEmpty]
  · rw [hmain]
    have he : service.isEmpty = false := by
      cases service with
      | nil => exact absurd rfl hs
      | cons c cs => rfl
    simp only [he, Bool.false_or]
    rw [hf]
    simp

theorem filterByService_spec_witness :
    filterByService
      [⟨[⟨"1".data, [], [], [], [], [], []⟩], [], "metro".data⟩,
       ⟨[⟨"2".data, [], [], [], [], [], []⟩], [], "cptm".data⟩]
      "METRO".data
    = [⟨"1".data, [], [], [], [], [], []⟩] :=
  filterByService_spec.2.2
    [⟨[⟨"1".data, [], [], [], [], [], []⟩], [], "metro".data⟩,
     ⟨[⟨"2".data, [], [], [], [], [], []⟩], [], "cptm".data⟩]
    "METRO".data
    ⟨[⟨"1".data, [], [], [], [], [], []⟩], [], "metro".data⟩
    (by decide) (by decide)

-- Table column width (claim C6)

theorem ifGt_eq_max (a b : Nat) : (if b > a then b else a) = Nat.max a b := by
  show (if b > a then b else a) = if a ≤ b then b else a
  by_cases h : b > a
  · rw [if_pos h, if_pos (Nat.le_of_lt h)]
  · rw [if_neg h]
    by_cases h2 : a ≤ b
    · have he : a = b := Nat.le_antisymm h2 (Nat.le_of_not_lt h)
      rw [if_pos h2, he]
    · rw [if_neg h2]

theorem foldl_max_shift (xs : List Nat) (a b : Nat) :
    xs.foldl Nat.max (Nat.max a b) = Nat.max a (xs.foldl Nat.max b) := by
  induction xs generalizing b with
  | nil => rfl
  | cons x xs ih =>
    simp only [List.foldl_cons, Nat.max_assoc]
    exact ih (Nat.max b x)

theorem tableMaxLen_foldl (lines : List LineItem) (a : Nat) :
    lines.foldl
      (fun maxLen l =>
        let n := byteLen (formatLineName l.line)
        if n > maxLen then n else maxLen)
      a
    = (lines.map (fun l => byteLen (formatLineName l.line))).foldl Nat.max a := by
  induction lines generalizing a with
  | nil => rfl
  | cons x xs ih =>
    simp only [List.foldl_cons, List.map_cons]
    rw [ifGt_eq_max, ih]

/-- Claim C6 counterexample: for the single line item whose formatted name is
"Aáááá" (5 characters, 9 UTF-8 bytes) the code computes a column width of 9,
while the maximum display width in characters with a floor of 5 is 5. -/
theorem tableMaxLen_ne_specDisplayWidth :
    tableMaxLen [wideNameItem] = 9 ∧
    specDisplayWidth [wideNameItem] = 5 ∧
    (formatLineName wideNameItem.line).length = 5 ∧
    tableMaxLen [wideNameItem] ≠ specDisplayWidth [wideNameItem] := by
  decide

/-- Claim C6 as amended: the column width computed by the table renderer is
the maximum UTF-8 byte length (Go string `len`) of all formatted line names,
with a floor of 5. -/
theorem tableMaxLen_spec (lines : List LineItem) :
    tableMaxLen lines =
      Nat.max 5
        ((lines.map (fun l => byteLen (formatLineName l.line))).foldl Nat.max 0) := by
  rw [tableMaxLen, tableMaxLen_foldl]
  have h := foldl_max_shift (lines.map (fun l => byteLen (formatLineName l.line))) 5 0
  simpa using h

-- JSON round trip (claim C2)

theorem decodeEntry_encoded (l : LineItem) :
    decodeEntry
      (.obj [("line".data, .str (formatLineName l.line)),
             ("status".data, .str (normalizeStatus l.status))])
    = some (formatLineName l.line, normalizeStatus l.status) := by
  rfl

theorem decodeEntries_encoded (lines : List LineItem) :
    decodeEntries
      (lines.map (fun l =>
        Json.obj [("line".data, .str (formatLineName l.line)),
                  ("status".data, .str (normalizeStatus l.status))]))
    = some (lines.map (fun l => (formatLineName l.line, normalizeStatus l.status))) := by
  induction lines with
  | nil => rfl
  | cons l ls ih =>
    simp only [List.map_cons, decodeEntries, ih]
    rfl

/-- Claim C2: decoding the JSON document produced by the JSON renderer for a
non-empty list of line items yields code 200, message "success", and data
entries pairing each source item's formatted line name with its normalized
status, in order. -/
theorem printJSON_roundTrip (lines : List LineItem) (h : lines ≠ []) :
    decodeOutput (printJSONDoc lines) =
      some (200,
        lines.map (fun l => (formatLineName l.line, normalizeStatus l.status)),
        "success".data) := by
  have hm := decodeEntries_encoded lines
  have hstep : decodeOutput (printJSONDoc lines) =
      match decodeEntries (lines.map (fun l =>
        Json.obj [("line".data, .str (formatLineName l.line)),
                  ("status".data, .str (normalizeStatus l.status))])) with
      | some entries => some ((200 : Int), entries, "success".data)
      | none => none := rfl
  rw [hstep, hm]

theorem printJSON_roundTrip_witness :
    decodeOutput (printJSONDoc [⟨[], "Linha 1-Azul".data, [], "Operações Normais".data, [], [], []⟩]) =
      some (200, [("Azul".data, "Operação Normal".data)], "success".data) := by
  have happ :=
    printJSON_roundTrip [⟨[], "Linha 1-Azul".data, [], "Operações Normais".data, [], [], []⟩]
      (by decide)
  rw [happ]
  decide

-- Argument errors (claims C7 and C8)

theorem parseLoop_error_of_unknownFlag (argv : List Str) (st : Flags)
    (h : hasUnknownFlag argv = true) :
    ∃ m1 m2 : Str, parseLoop argv st = .error [m1, m2] := by
  induction argv generalizing st with
  | nil => cases h
  | cons a rest ih =>
    have hany : unknownFlagArg a = true ∨ hasUnknownFlag rest = true := by
      have hh : (unknownFlagArg a || hasUnknownFlag rest) = true := h
      exact Bool.or_eq_true_iff.mp hh
    by_cases c1 : a = "-j".data ∨ a = "--json".data
    · have hrest : hasUnknownFlag rest = true := by
        rcases hany with hu | hr
        · exfalso
          rcases c1 with he | he <;> rw [he] at hu <;> exact absurd hu (by decide)
        · exact hr
      simp only [parseLoop, if_pos c1]
      exact ih _ hrest
    · by_cases c2 : a = "-v".data ∨ a = "--version".data
      · have hrest : hasUnknownFlag rest = true := by
          rcases hany with hu | hr
          · exfalso
            rcases c2 with he | he <;> rw [he] at hu <;> exact absurd hu (by decide)
          · exact hr
        simp only [parseLoop, if_neg c1, if_pos c2]
        exact ih _ hrest
      · by_cases c3 : a = "--copyright".data
        · have hrest : hasUnknownFlag rest = true := by
            rcases hany with hu | hr
            · exfalso
              rw [c3] at hu
              exact absurd hu (by decide)
            · exact hr
          simp only [parseLoop, if_neg c1, if_neg c2, if_pos c3]
          exact ih _ hrest
        · by_cases c4 : a = "-h".data ∨ a = "--help".data
          · have hrest : hasUnknownFlag rest = true := by
              rcases hany with hu | hr
              · exfalso
                rcases c4 with he | he <;> rw [he] at hu <;> exact absurd hu (by decide)
              · exact hr
            simp only [parseLoop, if_neg c1, if_neg c2, if_neg c3, if_pos c4]
            exact ih _ hrest
          · by_cases hd : startsWithDash a = true
            · refine ⟨"Error: unknown flag ".data ++ a,
                "Use tpsp --help for usage information".data, ?_⟩
              simp only [parseLoop, if_neg c1, if_neg c2, if_neg c3, if_neg c4, hd, if_true]
            · have hda : startsWithDash a = false := eq_false_of_ne_true hd
              have hrest : hasUnknownFlag rest = true := by
                rcases hany with hu | hr
                · exfalso
                  unfold unknownFlagArg at hu
                  rw [hda] at hu
                  simp at hu
                · exact hr
              simp only [parseLoop, if_neg c1, if_neg c2, if_neg c3, if_neg c4, hda]
              simp only [Bool.false_eq_true, if_false]
              exact ih _ hrest

/-- Claim C7 as amended: an invocation containing an argument that starts
with a dash but is not a recognized flag always exits with code 1 after a
non-empty standard-error message and never issues the HTTP request; an
invocation whose first positional service argument is not in the valid set
does the same, provided no help, version or copyright flag is present (those
are handled before service validation and exit with code 0). -/
theorem argErrors_spec (argv : List Str) (fetch : FetchOutcome) :
    (hasUnknownFlag argv = true →
      (runMain argv fetch).exitCode = 1 ∧ (runMain argv fetch).stderr ≠ [] ∧
      (runMain argv fetch).httpRequested = false) ∧
    (∀ st : Flags, parseLoop argv initFlags = .ok st →
      st.showHelp = false → st.showVersion = false → st.showCopyright = false →
      st.args ≠ [] → isValidService (st.args.headD []) = false →
      (runMain argv fetch).exitCode = 1 ∧ (runMain argv fetch).stderr ≠ [] ∧
      (runMain argv fetch).httpRequested = false) := by
  constructor
  · intro h
    rcases parseLoop_error_of_unknownFlag argv initFlags h with ⟨m1, m2, he⟩
    simp [runMain, he]
  · intro st hp h1 h2 h3 h4 h5
    have h5' : isValidService (st.args.head?.getD []) = false := by
      simpa using h5
    simp [runMain, hp, h1, h2, h3, h4, h5']

theorem argErrors_spec_witness :
    ((runMain ["--bogus".data] (FetchOutcome.ok ⟨true, []⟩)).exitCode = 1 ∧
     (runMain ["--bogus".data] (FetchOutcome.ok ⟨true, []⟩)).stderr ≠ [] ∧
     (runMain ["--bogus".data] (FetchOutcome.ok ⟨true, []⟩)).httpRequested = false) ∧
    ((runMain ["zzz".data] (FetchOutcome.ok ⟨true, []⟩)).exitCode = 1 ∧
     (runMain ["zzz".data] (FetchOutcome.ok ⟨true, []⟩)).stderr ≠ [] ∧
     (runMain ["zzz".data] (FetchOutcome.ok ⟨true, []⟩)).httpRequested = false) :=
  ⟨(argErrors_spec ["--bogus".data] (FetchOutcome.ok ⟨true, []⟩)).1 (by decide),
   (argErrors_spec ["zzz".data] (FetchOutcome.ok ⟨true, []⟩)).2
     ⟨false, false, false, false, ["zzz".data]⟩ rfl
     rfl rfl rfl (by decide) (by decide)⟩

/-- Claim C7 counterexample: the invocation `tpsp zzz --help` has an invalid
positional service argument, yet the program prints the usage text and exits
with code 0 and an empty standard error, because `--help` is handled before
service validation. -/
theorem invalidService_withHelp_exits_zero :
    (runMain ["zzz".data, "--help".data] (FetchOutcome.ok ⟨true, []⟩)).exitCode = 0 ∧
    (runMain ["zzz".data, "--help".data] (FetchOutcome.ok ⟨true, []⟩)).stderr = [] ∧
    isValidService "zzz".data = false := by
  decide

/-- Claim C8: when the fetch succeeds, the API reports success, and the
filter for the requested service produces no line items, the program writes
"No lines found" to standard error, exits with code 1, and prints neither a
table nor JSON. -/
theorem emptyResult_spec (argv : List Str) (st : Flags) (resp : APIResponse)
    (hp : parseLoop argv initFlags = .ok st)
    (h1 : st.showHelp = false) (h2 : st.showVersion = false)
    (h3 : st.showCopyright = false)
    (h4 : st.args = [] ∨ isValidService (st.args.headD []) = true)
    (h5 : resp.status = true)
    (h6 : filterByService resp.data (st.args.headD []) = []) :
    runMain argv (FetchOutcome.ok resp) =
      ⟨1, ["No lines found".data], true, OutputKind.none⟩ := by
  have hcond : ¬(¬st.args = [] ∧ isValidService (st.args.head?.getD []) = false) := by
    rcases h4 with he | hv
    · exact fun hc => hc.1 he
    · have hv' : isValidService (st.args.head?.getD []) = true := by simpa using hv
      exact fun hc => by rw [hv'] at hc; exact absurd hc.2 (by decide)
  have h6' : filterByService resp.data (st.args.head?.getD []) = [] := by
    simpa using h6
  simp [runMain, hp, h1, h2, h3, hcond, h5, h6']

theorem emptyResult_spec_witness :
    runMain [] (FetchOutcome.ok ⟨true, []⟩) =
      ⟨1, ["No lines found".data], true, OutputKind.none⟩ :=
  emptyResult_spec [] initFlags ⟨true, []⟩ rfl rfl rfl rfl (Or.inl rfl) rfl rfl
